import Mathlib

/-!
Verification of the MadeEA meeting-brief / priority-digest / inbox-summary
pipeline (Netlify functions `generate-priorities.js`, the generate-brief
function, and the inbox-summary function).

The JavaScript sources are shallowly embedded: JS strings become Lean
`String`s (operated on through their character lists so that every
definition evaluates inside the kernel), JS numbers holding millisecond
timestamps become `Int`, and JS fractional arithmetic (meeting-hour
computations) becomes `ℚ`.  Fallible steps become `Option`.
-/

set_option maxRecDepth 8000

namespace MadeEA

/-! ## JavaScript string primitives

Structural re-implementations of the JS string operations used by the
source, written over `String.data` so that concrete instances reduce by
`decide`. -/

/-- Models `String.prototype.toLowerCase` (ASCII range, which is all the
source's keyword tables use). -/
def jsToLower (s : String) : String := ⟨s.data.map Char.toLower⟩

/-- `pat` is a prefix of `l` (character lists). -/
def isPrefixList : List Char → List Char → Bool
  | [], _ => true
  | _ :: _, [] => false
  | p :: ps, c :: cs => p == c && isPrefixList ps cs

/-- `pat` occurs somewhere inside `l` (character lists). -/
def containsList (pat : List Char) : List Char → Bool
  | [] => isPrefixList pat []
  | c :: cs => isPrefixList pat (c :: cs) || containsList pat cs

/-- Models `String.prototype.includes(pat)`. -/
def includes (s pat : String) : Bool := containsList pat.data s.data

/-- JS `\s` whitespace characters (the ones that can occur in our inputs). -/
def isWS (c : Char) : Bool :=
  c == ' ' || c == '\t' || c == '\n' || c == '\r' || c == '\x0b' || c == '\x0c'

/-- ASCII alphanumeric, the `[a-zA-Z0-9]` class of the source's regexes. -/
def isAlnumChar (c : Char) : Bool :=
  ('a' ≤ c && c ≤ 'z') || ('A' ≤ c && c ≤ 'Z') || ('0' ≤ c && c ≤ '9')

/-- Models `.replace(/[^a-zA-Z0-9\s]/g, ' ')`. -/
def jsReplaceNonAlnum (s : String) : String :=
  ⟨s.data.map (fun c => if isAlnumChar c || isWS c then c else ' ')⟩

theorem length_dropWhile_le' {α : Type} (p : α → Bool) :
    ∀ l : List α, (l.dropWhile p).length ≤ l.length := by
  intro l
  induction l with
  | nil => simp [List.dropWhile]
  | cons c cs ih =>
      by_cases h : p c = true
      · simpa [List.dropWhile, h] using Nat.le_succ_of_le ih
      · simp [List.dropWhile, h]

/-- `split(/\s+/)` worker: currently inside a token whose characters read so
far are `acc` (reversed); a whitespace character ends the token and the
whole run it starts is skipped. -/
def splitWSTok : List Char → List Char → List (List Char)
  | [], acc => [acc.reverse]
  | c :: rest, acc =>
      if isWS c then acc.reverse :: splitWSTok (rest.dropWhile isWS) []
      else splitWSTok rest (c :: acc)
termination_by l _ => l.length
decreasing_by
  · exact Nat.lt_succ_of_le (length_dropWhile_le' isWS rest)
  · exact Nat.lt_succ_self rest.length

/-- Models `String.prototype.split(/\s+/)`: tokens between maximal
whitespace runs, with the empty boundary tokens JS produces. -/
def jsSplitWS (s : String) : List String :=
  match s.data with
  | [] => [""]
  | c :: rest =>
      if isWS c then "" :: (splitWSTok (rest.dropWhile isWS) []).map (fun l => ⟨l⟩)
      else (splitWSTok rest [c]).map (fun l => ⟨l⟩)

/-- Models `String.prototype.split(sep)` for a one-character separator. -/
def splitOnCharAux (sep : Char) : List Char → List Char → List String
  | [], acc => [⟨acc.reverse⟩]
  | c :: rest, acc =>
      if c == sep then (⟨acc.reverse⟩ : String) :: splitOnCharAux sep rest []
      else splitOnCharAux sep rest (c :: acc)

/-- Models `String.prototype.split(sep)` for a one-character separator
(`'\n'` and `'@'` in the source). -/
def splitOnChar (sep : Char) (s : String) : List String :=
  splitOnCharAux sep s.data []

/-- Models `String.prototype.trim()`. -/
def jsTrim (s : String) : String :=
  ⟨((s.data.dropWhile isWS).reverse.dropWhile isWS).reverse⟩

/-- Models `Array.prototype.join(sep)` on an array of strings. -/
def joinWith (sep : String) : List String → String
  | [] => ""
  | [t] => t
  | t :: ts => t ++ sep ++ joinWith sep ts

/-- Models `String.prototype.substring(0, n)` (and `.slice` on strings). -/
def jsSubstring (s : String) (n : Nat) : String := ⟨s.data.take n⟩

/-- Stable insertion of `a` into an already sorted list, for `jsSort`. -/
def insertLe {α : Type} (le : α → α → Bool) (a : α) : List α → List α
  | [] => [a]
  | b :: bs => if le a b then a :: b :: bs else b :: insertLe le a bs

/-- Models `Array.prototype.sort(cmp)` with a comparator `cmp a b ≤ 0` given
as `le`; JS engines' sort is stable, as is this insertion sort. -/
def jsSort {α : Type} (le : α → α → Bool) : List α → List α
  | [] => []
  | a :: as => insertLe le a (jsSort le as)

/-! ## generate brief: meeting-type detection (`detectMeetingType`) -/

/-- The meeting-type detector of the generate-brief function, translated
clause by clause: lower-case the title, then run the fixed ordered
substring cascade; `external` is the list of external-attendee emails. -/
def detectMeetingType (subject : String) (external : List String) : String :=
  let s := jsToLower subject
  if includes s "interview" then "interview"
  else if includes s "standup" || includes s "stand-up" then "standup"
  else if includes s "1:1" || includes s "one on one" || includes s "1-1" then "one-on-one"
  else if includes s "review" then "review"
  else if includes s "planning" || includes s "sprint" then "planning"
  else if includes s "demo" || includes s "presentation" then "presentation"
  else if includes s "kickoff" || includes s "kick-off" then "kickoff"
  else if decide (0 < external.length) then "external"
  else "general"

/-- Spec-side restatement of the precedence table: an ordered list of
(match-test, label) rules, first match wins, default `"general"`. -/
def meetingTypeRules : List ((String → List String → Bool) × String) :=
  [ (fun s _ => includes s "interview", "interview"),
    (fun s _ => includes s "standup" || includes s "stand-up", "standup"),
    (fun s _ => includes s "1:1" || includes s "one on one" || includes s "1-1", "one-on-one"),
    (fun s _ => includes s "review", "review"),
    (fun s _ => includes s "planning" || includes s "sprint", "planning"),
    (fun s _ => includes s "demo" || includes s "presentation", "presentation"),
    (fun s _ => includes s "kickoff" || includes s "kick-off", "kickoff"),
    (fun _ ext => decide (0 < ext.length), "external") ]

/-- First rule in `rules` whose test accepts wins; no rule means
`"general"`. -/
def firstMatchType (rules : List ((String → List String → Bool) × String))
    (s : String) (ext : List String) : String :=
  match rules with
  | [] => "general"
  | (p, label) :: rest => if p s ext then label else firstMatchType rest s ext

/-- Spec reading of the detector: lower-cased title run through the ordered
rule table. -/
def detectMeetingTypeSpec (subject : String) (external : List String) : String :=
  firstMatchType meetingTypeRules (jsToLower subject) external

/-! ## generate brief: keyword extraction (`extractKeywords`) -/

/-- Drop characters up to and including the first `'>'`; `none` when there
is no `'>'` left (so the tag regexes cannot match any further). -/
def findAfterGt : List Char → Option (List Char)
  | [] => none
  | c :: rest => if c == '>' then some rest else findAfterGt rest

theorem findAfterGt_length :
    ∀ l after : List Char, findAfterGt l = some after → after.length < l.length := by
  intro l
  induction l with
  | nil => intro after h; simp [findAfterGt] at h
  | cons c rest ih =>
      intro after h
      by_cases hc : (c == '>') = true
      · simp [findAfterGt, hc] at h
        simp [← h]
      · simp [findAfterGt, hc] at h
        exact Nat.lt_succ_of_lt (ih after h)

/-- Models `.replace(/<[^>]*>/g, ' ')`: every bracketed run becomes one
space; a `'<'` with no closing `'>'` is left alone. -/
def stripTags : List Char → List Char
  | [] => []
  | c :: rest =>
      if c == '<' then
        match h : findAfterGt rest with
        | some after => ' ' :: stripTags after
        | none => c :: rest
      else c :: stripTags rest
termination_by l => l.length
decreasing_by
  · exact Nat.lt_succ_of_lt (findAfterGt_length _ _ (by assumption))
  · exact Nat.lt_succ_self _

/-- The fixed stop-word set of `extractKeywords`. -/
def stopWords : List String :=
  ["meeting", "call", "sync", "standup", "review", "discussion", "update",
   "the", "and", "for", "with"]

/-- The title-derived keyword list: strip non-alphanumerics, split on
whitespace, keep tokens longer than 3 characters that are not stop-words
(case-insensitively), first 5. -/
def titleKeywords (subject : String) : List String :=
  ((jsSplitWS (jsReplaceNonAlnum subject)).filter
    (fun w => decide (3 < w.length) && !(stopWords.contains (jsToLower w)))).take 5

/-- The description-derived keyword list: strip HTML tags and
non-alphanumerics, split on whitespace, keep tokens longer than 4
characters, first 5. -/
def descKeywords (description : String) : List String :=
  ((jsSplitWS (jsReplaceNonAlnum ⟨stripTags description.data⟩)).filter
    (fun w => decide (4 < w.length))).take 5

/-- `extractKeywords` before the final join: title keywords, then (when a
description is present) description keywords, capped at 8. -/
def extractKeywordsList (subject description : String) : List String :=
  (titleKeywords subject ++
    (if description == "" then [] else descKeywords description)).take 8

/-- The keyword extractor of the generate-brief function: at most 8 tokens
joined by single spaces. -/
def extractKeywords (subject description : String) : String :=
  joinWith " " (extractKeywordsList subject description)

/-! ## generate priorities: calendar processing (`processCalendarEvents`)

Timestamps are milliseconds since the epoch (`Int`, the value
`new Date(x).getTime()` denotes); fractional hour arithmetic is exact
rational arithmetic.  The handler derives `todayEnd` / `tomorrowEnd`
from the local calendar date of "now"; they are passed in here as the
two boundary instants. -/

/-- Models JS `Math.round`. -/
def jsRound (x : ℚ) : ℤ := ⌊x + 1 / 2⌋

/-- Models `Math.round(x * 10) / 10`, the source's one-decimal rounding. -/
def round1 (x : ℚ) : ℚ := (jsRound (x * 10) : ℚ) / 10

/-- A raw Google Calendar event as the priority digest reads it:
`start.dateTime` when present (timed events), else `start.date`
(all-day events); likewise for the end. -/
structure RawCalEvent where
  startDateTime : Option Int
  startDate : Int
  endDateTime : Option Int
  endDate : Int
  summary : Option String
  attendees : List String

/-- One processed calendar event of the priority digest.  The
locale-formatted display string of the start time is presentation-only
and not modelled. -/
structure ProcessedCalEvent where
  title : String
  startTime : Int
  timeCategory : String
  isAllDay : Bool
  durationHours : ℚ
  meetingType : String
  prioritySignal : String
  attendeeCount : Nat
  deriving Repr

/-- The per-event body of `processCalendarEvents`: time classification,
one-decimal duration, and the ordered title-substring table assigning
`meetingType` and `prioritySignal` together. -/
def processCalEvent (todayEnd tomorrowEnd : Int) (event : RawCalEvent) : ProcessedCalEvent :=
  let startTime := event.startDateTime.getD event.startDate
  let endTime := event.endDateTime.getD event.endDate
  let isAllDay := event.startDateTime.isNone
  let durationHours : ℚ := ((endTime - startTime : Int) : ℚ) / (1000 * 60 * 60)
  let timeCategory :=
    if startTime < todayEnd then "today"
    else if startTime < tomorrowEnd then "tomorrow"
    else "later"
  let s := jsToLower (event.summary.getD "")
  let tp : String × String :=
    if includes s "board" || includes s "investor" then ("board/investor", "critical")
    else if includes s "1:1" || includes s "one on one" || includes s "1-1" then ("1:1", "high")
    else if includes s "review" || includes s "decision" then ("decision", "high")
    else if includes s "all hands" || includes s "town hall" then ("company-wide", "high")
    else if includes s "deadline" || includes s "due" then ("deadline", "critical")
    else if includes s "interview" then ("interview", "high")
    else if includes s "standup" || includes s "sync" then ("recurring", "normal")
    else ("general", "normal")
  { title := event.summary.getD "Untitled"
    startTime := startTime
    timeCategory := timeCategory
    isAllDay := isAllDay
    durationHours := round1 durationHours
    meetingType := tp.1
    prioritySignal := tp.2
    attendeeCount := event.attendees.length }

/-- The summary block of the processed calendar. -/
structure CalSummary where
  totalEvents : Nat
  todayCount : Nat
  todayMeetingHours : ℚ
  criticalCount : Nat
  highPriorityCount : Nat
  availableHours : ℚ

/-- Result shape of `processCalendarEvents`. -/
structure ProcessedCalendar where
  events : List ProcessedCalEvent
  todayEvents : List ProcessedCalEvent
  summary : CalSummary
  criticalMeetings : List ProcessedCalEvent
  highPriorityMeetings : List ProcessedCalEvent

/-- `processCalendarEvents` of the priority digest. -/
def processCalendarEvents (todayEnd tomorrowEnd : Int)
    (events : List RawCalEvent) : ProcessedCalendar :=
  let processed := events.map (processCalEvent todayEnd tomorrowEnd)
  let todayEvents := processed.filter (fun e => e.timeCategory == "today")
  let todayMeetingHours : ℚ := todayEvents.foldl (fun sum e => sum + e.durationHours) 0
  { events := processed
    todayEvents := todayEvents
    summary :=
      { totalEvents := processed.length
        todayCount := todayEvents.length
        todayMeetingHours := round1 todayMeetingHours
        criticalCount := (processed.filter (fun e => e.prioritySignal == "critical")).length
        highPriorityCount := (processed.filter (fun e => e.prioritySignal == "high")).length
        availableHours := round1 (max 0 (8 - todayMeetingHours)) }
    criticalMeetings := processed.filter (fun e => e.prioritySignal == "critical")
    highPriorityMeetings := processed.filter (fun e => e.prioritySignal == "high") }

/-! ## generate priorities: email processing (`processEmails`) -/

/-- A fetched priority email (metadata headers plus Gmail labels). -/
structure RawEmail where
  subject : String
  sender : String
  date : String
  snippet : String
  labelIds : List String
  deriving Repr

/-- Models the sender-header regex `/([^<]+)?<?([^>]+@([^>]+))>?/` up to its
observable name/address split: an optional display name before `'<'`, the
address between the angle brackets; with no brackets the raw header is the
address and the part before `'@'` the name. -/
def parseSender (sender : String) : String × String :=
  if sender.data.contains '<' then
    let namePart := jsTrim ⟨sender.data.takeWhile (fun c => !(c == '<'))⟩
    let addrPart : String :=
      ⟨((sender.data.dropWhile (fun c => !(c == '<'))).drop 1).takeWhile (fun c => !(c == '>'))⟩
    ((if namePart == "" then (splitOnChar '@' sender).headD sender else namePart), addrPart)
  else ((splitOnChar '@' sender).headD sender, sender)

/-- One processed email of the priority digest. -/
structure ProcessedEmail where
  subject : String
  senderName : String
  senderEmail : String
  snippet : String
  isStarred : Bool
  isImportant : Bool
  isUnread : Bool
  urgencyLevel : String
  category : String
  requiresAction : Bool
  deriving Repr

/-- The per-email body of `processEmails`: label flags, the urgency cascade
(subject keywords, then source-system flags), and the independent category
cascade. -/
def processEmail (email : RawEmail) : ProcessedEmail :=
  let sender := parseSender email.sender
  let isStarred := email.labelIds.contains "STARRED"
  let isImportant := email.labelIds.contains "IMPORTANT"
  let isUnread := email.labelIds.contains "UNREAD"
  let s := jsToLower email.subject
  let urgencyLevel :=
    if includes s "urgent" || includes s "asap" || includes s "immediately" ||
        includes s "critical" then "critical"
    else if includes s "important" || includes s "action required" ||
        includes s "deadline" || includes s "reminder" then "high"
    else if isImportant || isStarred then "high"
    else "normal"
  let category :=
    if includes s "approve" || includes s "approval" || includes s "sign" then "approval-needed"
    else if includes s "decision" || includes s "choose" || includes s "option" then "decision-needed"
    else if includes s "fyi" || includes s "update" || includes s "newsletter" then "informational"
    else if includes s "question" || includes s "help" || includes s "request" then "request"
    else if includes s "meeting" || includes s "invite" then "meeting-related"
    else if includes s "report" || includes s "status" || includes s "weekly" then "report"
    else "general"
  { subject := email.subject
    senderName := sender.1
    senderEmail := sender.2
    snippet := email.snippet
    isStarred := isStarred
    isImportant := isImportant
    isUnread := isUnread
    urgencyLevel := urgencyLevel
    category := category
    requiresAction := ["approval-needed", "decision-needed", "request"].contains category }

/-- `urgencyOrder` of the source: critical 0, high 1, normal 2. -/
def urgencyRank (u : String) : Nat :=
  if u == "critical" then 0 else if u == "high" then 1 else 2

/-- The `byCategory` sub-record of the email summary. -/
structure ByCategory where
  approvalNeeded : Nat
  decisionNeeded : Nat
  requests : Nat

/-- The summary block of the processed emails. -/
structure EmailSummary where
  totalEmails : Nat
  unreadCount : Nat
  actionableCount : Nat
  criticalCount : Nat
  highPriorityCount : Nat
  byCategory : ByCategory

/-- Result shape of `processEmails`. -/
structure ProcessedEmails where
  emails : List ProcessedEmail
  actionableEmails : List ProcessedEmail
  summary : EmailSummary
  criticalEmails : List ProcessedEmail
  highPriorityEmails : List ProcessedEmail

/-- `processEmails` of the priority digest (the urgency sort is stable, as
is the JS engines' `Array.prototype.sort`). -/
def processEmails (emails : List RawEmail) : ProcessedEmails :=
  let processed :=
    jsSort (fun a b => urgencyRank a.urgencyLevel ≤ urgencyRank b.urgencyLevel)
      (emails.map processEmail)
  { emails := processed
    actionableEmails := processed.filter (fun e => e.requiresAction)
    summary :=
      { totalEmails := processed.length
        unreadCount := (processed.filter (fun e => e.isUnread)).length
        actionableCount := (processed.filter (fun e => e.requiresAction)).length
        criticalCount := (processed.filter (fun e => e.urgencyLevel == "critical")).length
        highPriorityCount := (processed.filter (fun e => e.urgencyLevel == "high")).length
        byCategory :=
          { approvalNeeded := (processed.filter (fun e => e.category == "approval-needed")).length
            decisionNeeded := (processed.filter (fun e => e.category == "decision-needed")).length
            requests := (processed.filter (fun e => e.category == "request")).length } }
    criticalEmails := processed.filter (fun e => e.urgencyLevel == "critical")
    highPriorityEmails := processed.filter (fun e => e.urgencyLevel == "high") }

/-! ## generate priorities: task processing (`processTasks`) -/

/-- A raw Google Task; `due` is its due timestamp in ms when present. -/
structure RawTask where
  title : Option String
  notes : Option String
  listName : Option String
  due : Option Int
  deriving Repr

/-- One processed task.  The locale-formatted display string of the due
date is presentation-only and not modelled. -/
structure ProcessedTask where
  title : String
  notes : String
  listName : String
  dueDate : Option Int
  isOverdue : Bool
  isDueToday : Bool
  isDueThisWeek : Bool
  prioritySignal : String
  category : String
  deriving Repr

/-- The per-task body of `processTasks`: due-date arithmetic against `now`
and the day/week boundaries, then the keyword escalation rules and the
category table. -/
def processTask (now todayEnd weekEnd : Int) (task : RawTask) : ProcessedTask :=
  let flags : Bool × Bool × Bool :=
    match task.due with
    | none => (false, false, false)
    | some d =>
        let isOverdue := decide (d < now)
        let isDueToday := decide (d < todayEnd) && !isOverdue
        let isDueThisWeek := decide (d < weekEnd) && !isDueToday && !isOverdue
        (isOverdue, isDueToday, isDueThisWeek)
  let isOverdue := flags.1
  let isDueToday := flags.2.1
  let isDueThisWeek := flags.2.2
  let t := jsToLower (task.title.getD "")
  let prioritySignal :=
    if isOverdue then "critical"
    else if isDueToday then "high"
    else if includes t "urgent" || includes t "critical" || includes t "asap" then "critical"
    else if includes t "important" || includes t "priority" || isDueThisWeek then "high"
    else "normal"
  let category :=
    if includes t "review" || includes t "approve" || includes t "sign" then "approval"
    else if includes t "prepare" || includes t "draft" || includes t "write" then "preparation"
    else if includes t "call" || includes t "meet" || includes t "discuss" then "communication"
    else if includes t "decide" || includes t "choose" || includes t "finalize" then "decision"
    else if includes t "follow up" || includes t "check" then "follow-up"
    else "general"
  { title := task.title.getD "Untitled Task"
    notes := task.notes.getD ""
    listName := task.listName.getD "Tasks"
    dueDate := task.due
    isOverdue := isOverdue
    isDueToday := isDueToday
    isDueThisWeek := isDueThisWeek
    prioritySignal := prioritySignal
    category := category }

/-- The task sort comparator: priority rank first, then due date; tasks
with a due date come before tasks without. -/
def taskLE (a b : ProcessedTask) : Bool :=
  if urgencyRank a.prioritySignal == urgencyRank b.prioritySignal then
    match a.dueDate, b.dueDate with
    | some da, some db => decide (da ≤ db)
    | some _, none => true
    | none, some _ => false
    | none, none => true
  else decide (urgencyRank a.prioritySignal ≤ urgencyRank b.prioritySignal)

/-- The summary block of the processed tasks. -/
structure TaskSummary where
  totalTasks : Nat
  overdueCount : Nat
  dueTodayCount : Nat
  dueThisWeekCount : Nat
  criticalCount : Nat
  highPriorityCount : Nat

/-- Result shape of `processTasks`. -/
structure ProcessedTasks where
  tasks : List ProcessedTask
  summary : TaskSummary
  overdueTasks : List ProcessedTask
  todayTasks : List ProcessedTask
  criticalTasks : List ProcessedTask

/-- `processTasks` of the priority digest. -/
def processTasks (now todayEnd weekEnd : Int) (tasks : List RawTask) : ProcessedTasks :=
  let processed := jsSort taskLE (tasks.map (processTask now todayEnd weekEnd))
  { tasks := processed
    summary :=
      { totalTasks := processed.length
        overdueCount := (processed.filter (fun t => t.isOverdue)).length
        dueTodayCount := (processed.filter (fun t => t.isDueToday)).length
        dueThisWeekCount := (processed.filter (fun t => t.isDueThisWeek)).length
        criticalCount := (processed.filter (fun t => t.prioritySignal == "critical")).length
        highPriorityCount := (processed.filter (fun t => t.prioritySignal == "high")).length }
    overdueTasks := processed.filter (fun t => t.isOverdue)
    todayTasks := processed.filter (fun t => t.isDueToday)
    criticalTasks := processed.filter (fun t => t.prioritySignal == "critical") }

/-! ## generate priorities: strategic goals (`parseStrategicGoals`)

`JSON.parse` is an external capability; strategic goals are persisted
either as a JSON array of strings or as newline text (spec §3), so the
parse is modelled for exactly that shape: any input that is not a JSON
array of strings is sent to the newline branch, the source's behaviour
for every non-array parse result and for malformed JSON. -/

/-- JSON whitespace characters. -/
def isJsonWS (c : Char) : Bool := c == ' ' || c == '\t' || c == '\n' || c == '\r'

/-- Skip JSON whitespace. -/
def dropJsonWS (l : List Char) : List Char := l.dropWhile isJsonWS

/-- The JSON escape sequences the goals parser understands. -/
def escapeChar (e : Char) : Option Char :=
  if e == '"' then some '"'
  else if e == '\\' then some '\\'
  else if e == '/' then some '/'
  else if e == 'n' then some '\n'
  else if e == 't' then some '\t'
  else if e == 'r' then some '\r'
  else none

/-- Parse the remainder of a JSON string literal (the opening quote already
consumed), returning its value and the rest of the input.  A raw control
character (below U+0020) inside the literal is rejected, as `JSON.parse`
rejects it. -/
def parseJsonStringAux : List Char → List Char → Option (String × List Char)
  | [], _ => none
  | c :: rest, acc =>
      if c == '"' then some (⟨acc.reverse⟩, rest)
      else if c == '\\' then
        match rest with
        | [] => none
        | e :: rest2 =>
            match escapeChar e with
            | some ch => parseJsonStringAux rest2 (ch :: acc)
            | none => none
      else if c.toNat < 32 then none
      else parseJsonStringAux rest (c :: acc)

theorem parseJsonStringAux_length :
    ∀ l acc s rest, parseJsonStringAux l acc = some (s, rest) → rest.length < l.length := by
  intro l acc
  induction l, acc using parseJsonStringAux.induct with
  | case1 acc =>
      intro s rest h
      rw [parseJsonStringAux.eq_def] at h
      simp at h
  | case2 c rest acc hq =>
      intro s r h
      rw [parseJsonStringAux.eq_def] at h
      simp only [hq, if_true] at h
      simp at h
      simp [← h.2]
  | case3 c acc hq hb =>
      intro s r h
      rw [parseJsonStringAux.eq_def] at h
      simp [hq, hb] at h
  | case4 c acc hq hb e rest2 ch hm ih =>
      intro s r h
      rw [parseJsonStringAux.eq_def] at h
      simp [hq, hb, hm] at h
      exact Nat.lt_succ_of_lt (Nat.lt_succ_of_lt (ih _ _ h))
  | case5 c acc hq hb e rest2 hm =>
      intro s r h
      rw [parseJsonStringAux.eq_def] at h
      simp [hq, hb, hm] at h
  | case6 c rest acc hq hb hctl =>
      intro s r h
      rw [parseJsonStringAux.eq_def] at h
      simp [hq, hb, hctl] at h
  | case7 c rest acc hq hb hctl ih =>
      intro s r h
      rw [parseJsonStringAux.eq_def] at h
      simp [hq, hb, hctl] at h
      exact Nat.lt_succ_of_lt (ih _ _ h)

/-- Parse the items of a JSON array of strings (positioned at the start of
an item); `acc` holds the items read so far, reversed. -/
def parseJsonItems : List Char → List String → Option (List String)
  | l, acc =>
      match l with
      | '"' :: rest =>
          match h : parseJsonStringAux rest [] with
          | none => none
          | some (s, rest2) =>
              match h2 : dropJsonWS rest2 with
              | ',' :: rest4 => parseJsonItems (dropJsonWS rest4) (s :: acc)
              | ']' :: rest4 => if (dropJsonWS rest4).isEmpty then some (s :: acc).reverse else none
              | _ => none
      | _ => none
termination_by l _ => l.length
decreasing_by
  calc (dropJsonWS rest4).length
      ≤ rest4.length := length_dropWhile_le' _ _
    _ < (',' :: rest4).length := Nat.lt_succ_self _
    _ = (dropJsonWS rest2).length := by rw [h2]
    _ ≤ rest2.length := length_dropWhile_le' _ _
    _ < rest.length := parseJsonStringAux_length _ _ _ _ h
    _ < ('"' :: rest).length := Nat.lt_succ_self _

/-- `JSON.parse` restricted to arrays of strings: `none` exactly when the
input is not one (malformed input or a non-array value), which in
`parseStrategicGoals` falls through to the newline branch. -/
def jsonParseStringArray (s : String) : Option (List String) :=
  match dropJsonWS s.data with
  | '[' :: rest =>
      match dropJsonWS rest with
      | ']' :: rest2 => if (dropJsonWS rest2).isEmpty then some [] else none
      | other => parseJsonItems other []
  | _ => none

/-- The hardcoded fallback goals. -/
def defaultStrategicGoals : List String :=
  ["Maximize productivity", "Focus on high-impact work", "Meet all deadlines"]

/-- `parseStrategicGoals`: absent/empty value yields the defaults; a JSON
array is returned as is; anything else is split on newlines, trimmed, with
empty lines dropped. -/
def parseStrategicGoals (goalsStr : Option String) : List String :=
  match goalsStr with
  | none => defaultStrategicGoals
  | some s =>
      if s == "" then defaultStrategicGoals
      else
        match jsonParseStringArray s with
        | some arr => arr
        | none => ((splitOnChar '\n' s).map jsTrim).filter (fun g => decide (0 < g.length))

/-- Lower-case hexadecimal digit, for `\u00..` escapes. -/
def hexDigit (n : Nat) : Char :=
  if n < 10 then Char.ofNat (48 + n) else Char.ofNat (87 + n)

/-- `JSON.stringify`'s escaping of one character inside a string literal:
quote, backslash and the named control characters get two-character
escapes, the remaining control characters get `\u00..`, everything else
is emitted as is. -/
def stringifyChar (c : Char) : List Char :=
  if c == '"' then ['\\', '"']
  else if c == '\\' then ['\\', '\\']
  else if c == '\x08' then ['\\', 'b']
  else if c == '\t' then ['\\', 't']
  else if c == '\n' then ['\\', 'n']
  else if c == '\x0c' then ['\\', 'f']
  else if c == '\r' then ['\\', 'r']
  else if c.toNat < 32 then ['\\', 'u', '0', '0', hexDigit (c.toNat / 16), hexDigit (c.toNat % 16)]
  else [c]

/-- The serialisation the dashboard persists strategic goals with —
`strategic_goals: JSON.stringify(goalsArray)` in the profile-save handler
of `public/js/app.js` — restricted to the arrays of strings the dashboard
builds there. -/
def encodeStrategicGoals (goals : List String) : String :=
  "[" ++ joinWith ","
    (goals.map (fun g => "\"" ++ (⟨(g.data.map stringifyChar).flatten⟩ : String) ++ "\"")) ++ "]"

/-! ## generate priorities: day health (`buildAIContext`) and failure paths -/

/-- JS `x || d` on a non-negative number: `0` is falsy and becomes `d`. -/
def jsOrQ (x d : ℚ) : ℚ := if x = 0 then d else x

/-- JS `x || d` on a count: `0` is falsy and becomes `d`. -/
def jsOrN (x d : Nat) : Nat := if x = 0 then d else x

/-- The `dayHealth` metrics block of `buildAIContext`. -/
structure DayHealth where
  meetingLoad : ℚ
  availableFocusHours : ℚ
  pendingDecisions : Nat
  overdueItems : Nat
  criticalItems : Nat

/-- The `dayHealth` field of `buildAIContext`, translated operator by
operator (including each JS `|| default`). -/
def buildDayHealth (calendar : ProcessedCalendar) (emails : ProcessedEmails)
    (tasks : ProcessedTasks) : DayHealth :=
  { meetingLoad := jsOrQ calendar.summary.todayMeetingHours 0
    availableFocusHours := jsOrQ calendar.summary.availableHours 8
    pendingDecisions := jsOrN emails.summary.byCategory.decisionNeeded 0 +
      (tasks.tasks.filter (fun t => t.category == "decision")).length
    overdueItems := jsOrN tasks.summary.overdueCount 0
    criticalItems := jsOrN calendar.summary.criticalCount 0 +
      jsOrN emails.summary.criticalCount 0 + jsOrN tasks.summary.criticalCount 0 }

/-- A `briefing_logs` insert row (user id and timestamps are ambient). -/
structure LogInsert where
  meeting_count : Nat
  status : String
  error_message : Option String
  deriving Repr, DecidableEq

/-- The `error_message` written by the generate-brief catch block:
`err.message?.substring(0, 500)`. -/
def briefFailureLogMessage (msg : String) : String := jsSubstring msg 500

/-- The JSON `error` field returned by the generate-brief catch block. -/
def briefErrorBody (msg : String) : String := "Failed to generate brief: " ++ msg

/-- The `error_message` written by the generate-priorities catch block. -/
def prioritiesFailureLogMessage (msg : String) : String :=
  "Priority generation: " ++ jsSubstring msg 500

/-- The JSON `error` field returned by the generate-priorities catch
block. -/
def prioritiesErrorBody (msg : String) : String :=
  "Failed to generate priorities: " ++ msg

/-! ## inbox summary: generative classification post-processing -/

/-- A fetched inbox email (the source's `from` field is `sender` here,
`from` being reserved in Lean). -/
structure InboxEmail where
  id : String
  threadId : String
  subject : String
  sender : String
  date : String
  snippet : String
  text : String
  deriving Repr, DecidableEq, Inhabited

/-- One `{index, category}` pair of the model's classification output
(1-based index). -/
structure Classification where
  index : Int
  category : String
  deriving Repr, DecidableEq

/-- The fixed category set of the inbox summary. -/
def validCategories : List String :=
  ["highPriority", "actionRequired", "followUp", "deadlines"]

/-- Models `.replace(/<[^>]+>/g, '')`: bracketed runs with at least one
character inside are removed; an unclosed `'<'` is left alone. -/
def stripAngle : List Char → List Char
  | [] => []
  | c :: rest =>
      if c == '<' then
        match rest with
        | [] => [c]
        | d :: rest2 =>
            if d == '>' then c :: stripAngle (d :: rest2)
            else
              match h : findAfterGt rest2 with
              | some after => stripAngle after
              | none => c :: rest
      else c :: stripAngle rest
termination_by l => l.length
decreasing_by
  all_goals
    first
      | (simp only [List.length_cons]; omega)
      | exact Nat.lt_succ_of_lt (Nat.lt_succ_of_lt (findAfterGt_length _ _ (by assumption)))

/-- The display cleanup of the `from` header:
`.replace(/<[^>]+>/g, '').trim() || email.from`. -/
def fromClean (sender : String) : String :=
  let s := jsTrim ⟨stripAngle sender.data⟩
  if s == "" then sender else s

/-- The record pushed into a category list (the locale date formatting is
presentation-only and abstracted to the raw header value). -/
structure DisplayEmail where
  id : String
  threadId : String
  subject : String
  sender : String
  date : String
  snippet : String
  gmailLink : String
  deriving Repr, DecidableEq, Inhabited

/-- The display form of one email. -/
def displayEmail (e : InboxEmail) : DisplayEmail :=
  { id := e.id
    threadId := e.threadId
    subject := e.subject
    sender := fromClean e.sender
    date := e.date
    snippet := jsSubstring e.snippet 150
    gmailLink := "https://mail.google.com/mail/u/0/#inbox/" ++ e.id }

/-- The four category buckets of the inbox summary. -/
structure InboxCategories where
  highPriority : List DisplayEmail
  actionRequired : List DisplayEmail
  followUp : List DisplayEmail
  deadlines : List DisplayEmail
  deriving Repr, DecidableEq

/-- The empty buckets the categorisation loop starts from. -/
def emptyCategories : InboxCategories := ⟨[], [], [], []⟩

/-- `categories[cat].push(email)` for `cat` in the fixed category set. -/
def pushCategory (cats : InboxCategories) (cat : String) (e : DisplayEmail) : InboxCategories :=
  if cat == "highPriority" then { cats with highPriority := cats.highPriority ++ [e] }
  else if cat == "actionRequired" then { cats with actionRequired := cats.actionRequired ++ [e] }
  else if cat == "followUp" then { cats with followUp := cats.followUp ++ [e] }
  else if cat == "deadlines" then { cats with deadlines := cats.deadlines ++ [e] }
  else cats

/-- One iteration of the categorisation loop: normalise an invalid category
to `highPriority`, then place the indexed email — only when the (0-based)
index is within the fetched list. -/
def classifyStep (emails : List InboxEmail) (cats : InboxCategories)
    (c : Classification) : InboxCategories :=
  let idx := c.index - 1
  let cat := if validCategories.contains c.category then c.category else "highPriority"
  if 0 ≤ idx ∧ idx < (emails.length : Int) then
    match emails.get? idx.toNat with
    | some email => pushCategory cats cat (displayEmail email)
    | none => cats
  else cats

/-- The categorisation loop of the inbox-summary handler (step 7). -/
def sortIntoCategories (classifications : List Classification)
    (emails : List InboxEmail) : InboxCategories :=
  classifications.foldl (classifyStep emails) emptyCategories

/-- `totalCategorized`: the sum of the four bucket sizes. -/
def totalCategorized (cats : InboxCategories) : Nat :=
  cats.highPriority.length + cats.actionRequired.length +
    cats.followUp.length + cats.deadlines.length

/-- The parse-failure fallback: `emails.map((_, i) => ({index: i + 1,
category: 'highPriority'}))`. -/
def fallbackClassifications (emails : List InboxEmail) : List Classification :=
  emails.enum.map (fun p => { index := (p.1 : Int) + 1, category := "highPriority" })

/-- Step 6 of the handler: the model output is either a parsed
classification list or malformed (`none`), in which case every email is
assigned to `highPriority`. -/
def classificationsOf (modelOutput : Option (List Classification))
    (emails : List InboxEmail) : List Classification :=
  match modelOutput with
  | some cs => cs
  | none => fallbackClassifications emails

/-- Whether a classification entry refers to a fetched email. -/
def entryInRange (emails : List InboxEmail) (c : Classification) : Bool :=
  decide (0 ≤ c.index - 1 ∧ c.index - 1 < (emails.length : Int))

/-! ## generate brief: orchestration after the calendar fetch -/

/-- A calendar event as the generate-brief handler filters it
(`event.attendees || []` and the cancellation status). -/
structure GBEvent where
  summary : Option String
  attendees : List String
  status : String
  deriving Repr

/-- Step 4's filter: at least one attendee and not cancelled. -/
def qualifiesAsMeeting (e : GBEvent) : Bool :=
  decide (0 < e.attendees.length) && !(e.status == "cancelled")

/-- Observable outcome of one generate-brief invocation after the calendar
fetch: the log rows written, how many per-meeting AI-generation calls were
attempted, how many mail-send calls were made, and the response payload.
(On the failure path the response body carries only the error string;
`success`/`meeting_count` are reported as their absent-field defaults.) -/
structure RunOutcome where
  logs : List LogInsert
  aiCalls : Nat
  sendCalls : Nat
  statusCode : Nat
  success : Bool
  meeting_count : Nat
  message : String
  deriving Repr

/-- The generate-brief orchestrator from the qualifying-meetings filter
onward.  Each qualifying meeting costs exactly one AI-generation attempt
(per-meeting failures are caught and replaced by a placeholder brief, so
they do not change the counts); `sendError` is the mail-send gateway's
outcome, whose failure reaches the outer catch block. -/
def generateBriefRun (events : List GBEvent) (sendError : Option String) : RunOutcome :=
  let meetings := events.filter qualifiesAsMeeting
  if meetings.length = 0 then
    { logs := [{ meeting_count := 0, status := "success",
                 error_message := some "No meetings with attendees found today" }]
      aiCalls := 0
      sendCalls := 0
      statusCode := 200
      success := true
      meeting_count := 0
      message := "No meetings with attendees found today. No brief needed!" }
  else
    match sendError with
    | some msg =>
        { logs := [{ meeting_count := 0, status := "failed",
                     error_message := some (briefFailureLogMessage msg) }]
          aiCalls := meetings.length
          sendCalls := 1
          statusCode := 500
          success := false
          meeting_count := 0
          message := briefErrorBody msg }
    | none =>
        { logs := [{ meeting_count := meetings.length, status := "success",
                     error_message := none }]
          aiCalls := meetings.length
          sendCalls := 1
          statusCode := 200
          success := true
          meeting_count := meetings.length
          message := "Brief sent!" }

/-! ## token refresh (shared by all three handlers) -/

/-- Refreshed OAuth credentials; the expiry is kept as a millisecond
timestamp (the source converts it to an ISO string before storing). -/
structure Credentials where
  access_token : String
  expiry_date : Option Int
  deriving Repr, DecidableEq

/-- The persisted user row fields the three handlers read (the handlers
abort before the refresh step when `google_access_token` is absent, so it
is a plain `String` here). -/
structure UserRecord where
  google_access_token : String
  google_refresh_token : Option String
  google_token_expiry : Option Int
  strategic_goals : Option String
  calendar_id : Option String
  name : Option String
  email : String
  deriving Repr, DecidableEq

/-- The token-refresh step of every handler: a failed refresh is caught
(note logged, record untouched); a successful refresh updates the stored
access token and expiry only when the token changed.  The boolean reports
whether a persistence write was performed. -/
def refreshTokenStep (user : UserRecord) (outcome : Option Credentials) :
    UserRecord × Bool :=
  match outcome with
  | none => (user, false)
  | some credentials =>
      if credentials.access_token ≠ user.google_access_token then
        ({ user with
            google_access_token := credentials.access_token
            google_token_expiry := credentials.expiry_date }, true)
      else (user, false)

/-! # Claim theorems -/

/-! ## Inbox categorisation lemmas (C1, C3) -/

theorem push_total (cats : InboxCategories) (e : DisplayEmail) (cat : String)
    (h : validCategories.contains cat = true) :
    totalCategorized (pushCategory cats cat e) = totalCategorized cats + 1 := by
  simp [validCategories, List.contains] at h
  rcases h with h | h | h | h <;> subst h <;>
    simp [pushCategory, totalCategorized] <;> omega

theorem classifyStep_total (emails : List InboxEmail) (cats : InboxCategories)
    (c : Classification) :
    totalCategorized (classifyStep emails cats c) =
      totalCategorized cats + (if entryInRange emails c then 1 else 0) := by
  by_cases h : 0 ≤ c.index - 1 ∧ c.index - 1 < (emails.length : Int)
  · have hlt : (c.index - 1).toNat < emails.length := by omega
    have hone : (if entryInRange emails c = true then 1 else 0) = 1 := by
      simp [entryInRange, h]
    simp only [classifyStep]
    rw [if_pos h, List.get?_eq_get hlt, hone]
    by_cases hc : validCategories.contains c.category = true
    · rw [if_pos hc]
      exact push_total _ _ _ hc
    · rw [if_neg hc]
      exact push_total _ _ _ (by decide)
  · have hzero : entryInRange emails c = false := by
      simp only [entryInRange, decide_eq_false_iff_not]
      exact h
    simp only [classifyStep]
    rw [if_neg h]
    simp [hzero]

theorem foldl_classify_total (emails : List InboxEmail) :
    ∀ (cs : List Classification) (cats : InboxCategories),
      totalCategorized (List.foldl (classifyStep emails) cats cs) =
        totalCategorized cats + (cs.filter (entryInRange emails)).length := by
  intro cs
  induction cs with
  | nil => intro cats; simp
  | cons c cs ih =>
      intro cats
      rw [List.foldl_cons, ih, classifyStep_total]
      by_cases h : entryInRange emails c = true
      · simp [List.filter, h]
        omega
      · simp only [Bool.not_eq_true] at h
        simp [List.filter, h]

/-- The shape of one fallback entry, 0-based position `j`. -/
def fallbackEntry (j : Nat) : Classification :=
  { index := (j : Int) + 1, category := "highPriority" }

/-- The email a fallback entry at position `j` places. -/
def emailAt (emails : List InboxEmail) (j : Nat) : DisplayEmail :=
  displayEmail ((emails.get? j).getD default)

theorem fallback_fold (emails : List InboxEmail) :
    ∀ (js : List Nat) (cats : InboxCategories), (∀ j ∈ js, j < emails.length) →
      List.foldl (classifyStep emails) cats (js.map fallbackEntry) =
        { cats with highPriority := cats.highPriority ++ js.map (emailAt emails) } := by
  intro js
  induction js with
  | nil => intro cats _; simp
  | cons j js ih =>
      intro cats hmem
      have hj : j < emails.length := hmem j (by simp)
      rw [List.map_cons, List.foldl_cons]
      have hstep :
          classifyStep emails cats (fallbackEntry j) =
            { cats with highPriority := cats.highPriority ++ [emailAt emails j] } := by
        have hrange : (0 : Int) ≤ (j : Int) + 1 - 1 ∧ (j : Int) + 1 - 1 < (emails.length : Int) := by
          constructor <;> omega
        have htn : ((j : Int) + 1 - 1).toNat = j := by omega
        have hlt : (((j : Int) + 1 - 1)).toNat < emails.length := by omega
        simp only [classifyStep, fallbackEntry]
        rw [if_pos hrange, List.get?_eq_get hlt]
        simp only [pushCategory]
        rw [if_pos (by decide)]
        simp [emailAt, htn, List.getElem?_eq_getElem hj]
      rw [hstep, ih _ (fun i hi => hmem i (by simp [hi]))]
      rw [List.map_cons]
      simp

theorem range_map_get {α β : Type} [Inhabited α] (f : α → β) :
    ∀ l : List α, (List.range l.length).map (fun j => f ((l.get? j).getD default)) = l.map f := by
  intro l
  induction l with
  | nil => simp
  | cons x xs ih =>
      simp only [List.length_cons, List.range_succ_eq_map, List.map_cons, List.map_map]
      congr 1

theorem fallback_eq_range (emails : List InboxEmail) :
    fallbackClassifications emails =
      (List.range emails.length).map fallbackEntry := by
  unfold fallbackClassifications
  rw [← List.enum_map_fst emails, List.map_map]
  rfl

/-- C1 amended: the categorisation loop places exactly one email per
classification entry whose index is in range — so the total categorized
count equals the number of in-range entries, not in general the number of
fetched emails; when the model output is malformed, the fallback assigns
every fetched email (in order) to `highPriority`, and only then is the
total always the fetched count. -/
theorem inbox_total_categorized_amended :
    (∀ (emails : List InboxEmail) (cs : List Classification),
      totalCategorized (sortIntoCategories cs emails) =
        (cs.filter (entryInRange emails)).length) ∧
    (∀ emails : List InboxEmail,
      sortIntoCategories (classificationsOf none emails) emails =
        { highPriority := emails.map displayEmail
          actionRequired := []
          followUp := []
          deadlines := [] }) ∧
    (∀ emails : List InboxEmail,
      totalCategorized (sortIntoCategories (classificationsOf none emails) emails) =
        emails.length) := by
  have hfall : ∀ emails : List InboxEmail,
      sortIntoCategories (classificationsOf none emails) emails =
        { highPriority := emails.map displayEmail
          actionRequired := []
          followUp := []
          deadlines := [] } := by
    intro emails
    show List.foldl (classifyStep emails) emptyCategories (fallbackClassifications emails) = _
    rw [fallback_eq_range, fallback_fold emails _ _ (fun j hj => List.mem_range.mp hj)]
    have : (List.range emails.length).map (emailAt emails) = emails.map displayEmail :=
      range_map_get displayEmail emails
    rw [this]
    rfl
  refine ⟨?_, hfall, ?_⟩
  · intro emails cs
    have h := foldl_classify_total emails cs emptyCategories
    simpa [sortIntoCategories, totalCategorized, emptyCategories] using h
  · intro emails
    rw [hfall emails]
    simp [totalCategorized]

/-- C1 counterexample: well-formed model output that classifies only one
of two fetched emails leaves the total categorized count at 1 ≠ 2 — the
equality claimed for every model output fails. -/
theorem inbox_total_categorized_counterexample :
    totalCategorized
        (sortIntoCategories
          (classificationsOf (some [⟨1, "followUp"⟩])
            [⟨"id1", "t1", "Budget approval", "Ann Lee <ann@example.com>", "Mon", "s1", "b1"⟩,
             ⟨"id2", "t2", "Lunch", "Bob Roy <bob@example.com>", "Tue", "s2", "b2"⟩])
          [⟨"id1", "t1", "Budget approval", "Ann Lee <ann@example.com>", "Mon", "s1", "b1"⟩,
           ⟨"id2", "t2", "Lunch", "Bob Roy <bob@example.com>", "Tue", "s2", "b2"⟩]) = 1 ∧
    [⟨"id1", "t1", "Budget approval", "Ann Lee <ann@example.com>", "Mon", "s1", "b1"⟩,
     (⟨"id2", "t2", "Lunch", "Bob Roy <bob@example.com>", "Tue", "s2", "b2"⟩ : InboxEmail)].length = 2 := by
  constructor
  · decide
  · decide

/-- C3 amended: an entry with an in-range index but a category outside the
fixed set is normalised to `highPriority` and its email placed there; an
entry whose index is out of range is skipped entirely — no email is placed
for it. -/
theorem inbox_normalization_amended
    (emails : List InboxEmail) (cats : InboxCategories) (c : Classification) :
    (¬(0 ≤ c.index - 1 ∧ c.index - 1 < (emails.length : Int)) →
      classifyStep emails cats c = cats) ∧
    (∀ _h1 : 0 ≤ c.index - 1, ∀ _h2 : c.index - 1 < (emails.length : Int),
      validCategories.contains c.category = false →
      classifyStep emails cats c =
        pushCategory cats "highPriority"
          (displayEmail ((emails.get? (c.index - 1).toNat).getD default))) := by
  constructor
  · intro h
    simp only [classifyStep]
    rw [if_neg h]
  · intro h1 h2 hc
    have hlt : (c.index - 1).toNat < emails.length := by omega
    simp only [classifyStep]
    rw [if_pos ⟨h1, h2⟩, List.get?_eq_get hlt, if_neg (by simp only [hc]; decide)]
    simp

/-- C3 witness: an out-of-range entry is dropped; an in-range entry with a
bogus category lands in `highPriority`. -/
theorem inbox_normalization_amended_witness :
    classifyStep
        [⟨"id1", "t1", "Budget approval", "Ann Lee <ann@example.com>", "Mon", "s1", "b1"⟩]
        emptyCategories ⟨2, "followUp"⟩ = emptyCategories ∧
    classifyStep
        [⟨"id1", "t1", "Budget approval", "Ann Lee <ann@example.com>", "Mon", "s1", "b1"⟩]
        emptyCategories ⟨1, "mystery"⟩ =
      pushCategory emptyCategories "highPriority"
        (displayEmail ⟨"id1", "t1", "Budget approval", "Ann Lee <ann@example.com>", "Mon", "s1", "b1"⟩) := by
  constructor
  · exact (inbox_normalization_amended _ _ _).1 (by decide)
  · have h := (inbox_normalization_amended
      [⟨"id1", "t1", "Budget approval", "Ann Lee <ann@example.com>", "Mon", "s1", "b1"⟩]
      emptyCategories ⟨1, "mystery"⟩).2 (by decide) (by decide) (by decide)
    simpa using h

/-! ## Strategic-goals round trip (C8) -/

theorem data_append (a b : String) : (a ++ b).data = a.data ++ b.data := rfl

theorem dropJsonWS_cons_of {c : Char} (l : List Char) (h : isJsonWS c = false) :
    dropJsonWS (c :: l) = c :: l := by
  simp [dropJsonWS, List.dropWhile, h]

theorem parse_string_chars :
    ∀ l : List Char, (∀ c ∈ l, ¬c = '"' ∧ ¬c = '\\' ∧ ¬c.toNat < 32) →
      ∀ tail acc, parseJsonStringAux (l ++ '"' :: tail) acc = some (⟨acc.reverse ++ l⟩, tail) := by
  intro l
  induction l with
  | nil =>
      intro _ tail acc
      rw [List.nil_append, parseJsonStringAux.eq_def]
      simp
  | cons c cs ih =>
      intro hsafe tail acc
      have hc1 : (c == '"') = false := by
        simpa using (hsafe c (by simp)).1
      have hc2 : (c == '\\') = false := by
        simpa using (hsafe c (by simp)).2.1
      have hc3 : ¬c.toNat < 32 := (hsafe c (by simp)).2.2
      rw [List.cons_append, parseJsonStringAux.eq_def]
      simp only [hc1, hc2, Bool.false_eq_true, if_false]
      rw [if_neg hc3, ih (fun d hd => hsafe d (by simp [hd])) tail (c :: acc)]
      simp

theorem parse_string_whole (s : String)
    (h : ∀ c ∈ s.data, ¬c = '"' ∧ ¬c = '\\' ∧ ¬c.toNat < 32) (tail : List Char) :
    parseJsonStringAux (s.data ++ '"' :: tail) [] = some (s, tail) := by
  have hx := parse_string_chars s.data h tail []
  simpa using hx

theorem stringifyChar_plain (c : Char) (h1 : ¬c = '"') (h2 : ¬c = '\\')
    (h3 : ¬c.toNat < 32) : stringifyChar c = [c] := by
  have hq : (c == '"') = false := beq_eq_false_iff_ne.mpr h1
  have hb : (c == '\\') = false := beq_eq_false_iff_ne.mpr h2
  have h8 : (c == '\x08') = false :=
    beq_eq_false_iff_ne.mpr (fun he => h3 (by rw [he]; decide))
  have ht : (c == '\t') = false :=
    beq_eq_false_iff_ne.mpr (fun he => h3 (by rw [he]; decide))
  have hn : (c == '\n') = false :=
    beq_eq_false_iff_ne.mpr (fun he => h3 (by rw [he]; decide))
  have hf : (c == '\x0c') = false :=
    beq_eq_false_iff_ne.mpr (fun he => h3 (by rw [he]; decide))
  have hr : (c == '\x0d') = false :=
    beq_eq_false_iff_ne.mpr (fun he => h3 (by rw [he]; decide))
  simp only [stringifyChar, hq, hb, h8, ht, hn, hf, hr, Bool.false_eq_true, if_false]
  rw [if_neg h3]

theorem stringify_plain (g : String)
    (h : ∀ c ∈ g.data, ¬c = '"' ∧ ¬c = '\\' ∧ ¬c.toNat < 32) :
    (⟨(g.data.map stringifyChar).flatten⟩ : String) = g := by
  suffices hj : ∀ l : List Char, (∀ c ∈ l, ¬c = '"' ∧ ¬c = '\\' ∧ ¬c.toNat < 32) →
      (l.map stringifyChar).flatten = l by
    rw [hj g.data h]
  intro l hl
  induction l with
  | nil => rfl
  | cons c cs ih =>
      have hc := hl c (by simp)
      show stringifyChar c ++ (cs.map stringifyChar).flatten = c :: cs
      rw [stringifyChar_plain c hc.1 hc.2.1 hc.2.2,
        ih (fun d hd => hl d (by simp [hd])), List.singleton_append]

theorem encode_eq_plain (goals : List String)
    (hsafe : ∀ g ∈ goals, ∀ c ∈ g.data, ¬c = '"' ∧ ¬c = '\\' ∧ ¬c.toNat < 32) :
    encodeStrategicGoals goals =
      "[" ++ joinWith "," (goals.map (fun g => "\"" ++ g ++ "\"")) ++ "]" := by
  unfold encodeStrategicGoals
  have hmap : goals.map (fun g => "\"" ++ (⟨(g.data.map stringifyChar).flatten⟩ : String) ++ "\"") =
      goals.map (fun g => "\"" ++ g ++ "\"") :=
    List.map_congr_left (fun g hg => by rw [stringify_plain g (hsafe g hg)])
  rw [hmap]

theorem parseJsonItems_step_close (rest : List Char) (acc : List String) (s : String)
    (hp : parseJsonStringAux rest [] = some (s, [']'])) :
    parseJsonItems ('"' :: rest) acc = some (s :: acc).reverse := by
  rw [parseJsonItems.eq_def]
  simp only []
  split
  · rename_i heq
    rw [hp] at heq
    cases heq
  · rename_i s' rest2' heq
    rw [hp] at heq
    have hs : s = s' := by
      have h2 := (Option.some.injEq _ _).mp heq
      simpa using congrArg Prod.fst h2
    have hr : (List.cons ']' [] : List Char) = rest2' := by
      have h2 := (Option.some.injEq _ _).mp heq
      simpa using congrArg Prod.snd h2
    subst hs
    rw [← hr]
    rfl

theorem parseJsonItems_step_comma (rest : List Char) (acc : List String) (s : String)
    (rest4 : List Char) (hp : parseJsonStringAux rest [] = some (s, ',' :: rest4)) :
    parseJsonItems ('"' :: rest) acc = parseJsonItems (dropJsonWS rest4) (s :: acc) := by
  rw [parseJsonItems.eq_def]
  simp only []
  split
  · rename_i heq
    rw [hp] at heq
    cases heq
  · rename_i s' rest2' heq
    rw [hp] at heq
    have hs : s = s' := by
      have h2 := (Option.some.injEq _ _).mp heq
      simpa using congrArg Prod.fst h2
    have hr : ',' :: rest4 = rest2' := by
      have h2 := (Option.some.injEq _ _).mp heq
      simpa using congrArg Prod.snd h2
    subst hs
    rw [← hr]
    rfl

theorem parseJsonItems_encoded :
    ∀ goals : List String, goals ≠ [] →
      (∀ g ∈ goals, ∀ c ∈ g.data, ¬c = '"' ∧ ¬c = '\\' ∧ ¬c.toNat < 32) →
      ∀ acc, parseJsonItems
          ((joinWith "," (goals.map (fun g => "\"" ++ g ++ "\""))).data ++ [']']) acc =
        some (acc.reverse ++ goals) := by
  intro goals
  induction goals with
  | nil => intro h; exact absurd rfl h
  | cons g gs ih =>
      intro _ hsafe acc
      have hg := hsafe g (by simp)
      cases gs with
      | nil =>
          have harg : ((joinWith "," ([g].map (fun x => "\"" ++ x ++ "\""))).data ++ [']']) =
              '"' :: (g.data ++ '"' :: [']']) := by
            show ((("\"" ++ g) ++ "\"").data ++ [']']) = _
            simp [data_append]
          rw [harg, parseJsonItems_step_close _ acc _ (parse_string_whole g hg [']'])]
          simp
      | cons g2 gs2 =>
          have harg : ((joinWith "," ((g :: g2 :: gs2).map (fun x => "\"" ++ x ++ "\""))).data ++ [']']) =
              '"' :: (g.data ++ '"' :: ',' ::
                ((joinWith "," ((g2 :: gs2).map (fun x => "\"" ++ x ++ "\""))).data ++ [']'])) := by
            show (((("\"" ++ g) ++ "\"") ++ "," ++ _).data ++ [']']) = _
            simp [data_append]
          rw [harg, parseJsonItems_step_comma _ acc _ _ (parse_string_whole g hg _)]
          have hdrop : dropJsonWS
              ((joinWith "," ((g2 :: gs2).map (fun x => "\"" ++ x ++ "\""))).data ++ [']']) =
              (joinWith "," ((g2 :: gs2).map (fun x => "\"" ++ x ++ "\""))).data ++ [']'] := by
            obtain ⟨X, hX⟩ : ∃ X,
                (joinWith "," ((g2 :: gs2).map (fun x => "\"" ++ x ++ "\""))).data = '"' :: X := by
              cases gs2 <;> exact ⟨_, rfl⟩
            rw [hX, List.cons_append, dropJsonWS_cons_of _ (by decide)]
          rw [hdrop, ih (by simp) (fun x hx => hsafe x (by simp [hx])) (g :: acc)]
          simp

theorem jsonParse_encoded (goals : List String)
    (hsafe : ∀ g ∈ goals, ∀ c ∈ g.data, ¬c = '"' ∧ ¬c = '\\' ∧ ¬c.toNat < 32) :
    jsonParseStringArray (encodeStrategicGoals goals) = some goals := by
  cases goals with
  | nil => decide
  | cons g gs =>
      have hdata : (encodeStrategicGoals (g :: gs)).data =
          '[' :: ((joinWith "," ((g :: gs).map (fun x => "\"" ++ x ++ "\""))).data ++ [']']) := by
        rw [encode_eq_plain (g :: gs) hsafe]
        show ("[" ++ _ ++ "]").data = _
        simp [data_append]
      obtain ⟨X, hX⟩ : ∃ X,
          (joinWith "," ((g :: gs).map (fun x => "\"" ++ x ++ "\""))).data = '"' :: X := by
        cases gs <;> exact ⟨_, rfl⟩
      have hmain := parseJsonItems_encoded (g :: gs) (by simp) hsafe []
      unfold jsonParseStringArray
      rw [hdata, dropJsonWS_cons_of _ (by decide)]
      simp only []
      rw [hX, List.cons_append, dropJsonWS_cons_of _ (by decide)]
      show parseJsonItems ('"' :: (X ++ [']'])) [] = some (g :: gs)
      rw [← List.cons_append, ← hX]
      simpa using hmain

/-- C8: strategic goals round-trip — a persisted JSON array of (quote- and
backslash-free) goal strings parses back to exactly that list; newline text
"a\nb" parses to ["a","b"]; an empty or absent value yields the fixed
3-item default list. -/
theorem strategic_goals_roundtrip :
    (∀ goals : List String,
      (∀ g ∈ goals, ∀ c ∈ g.data, ¬c = '"' ∧ ¬c = '\\' ∧ ¬c.toNat < 32) →
      parseStrategicGoals (some (encodeStrategicGoals goals)) = goals) ∧
    parseStrategicGoals (some "a\nb") = ["a", "b"] ∧
    parseStrategicGoals (some "") = defaultStrategicGoals ∧
    parseStrategicGoals none = defaultStrategicGoals ∧
    defaultStrategicGoals.length = 3 := by
  refine ⟨?_, by decide, by decide, rfl, rfl⟩
  intro goals hsafe
  have hd : (encodeStrategicGoals goals).data =
      '[' :: ((joinWith "," (goals.map (fun x => "\"" ++ x ++ "\""))).data ++ [']']) := by
    rw [encode_eq_plain goals hsafe]
    show ("[" ++ _ ++ "]").data = _
    simp [data_append]
  have hne' : encodeStrategicGoals goals ≠ "" := by
    intro hcontr
    have hempty : (encodeStrategicGoals goals).data = [] := by rw [hcontr]
    rw [hd] at hempty
    cases hempty
  have hne : (encodeStrategicGoals goals == "") = false := beq_eq_false_iff_ne.mpr hne'
  simp only [parseStrategicGoals]
  rw [hne]
  simp only [Bool.false_eq_true, if_false]
  rw [jsonParse_encoded goals hsafe]

/-- C8 witness: the concrete array string the spec names. -/
theorem strategic_goals_roundtrip_witness :
    parseStrategicGoals (some "[\"a\",\"b\"]") = ["a", "b"] := by
  have h := strategic_goals_roundtrip.1 ["a", "b"] (by decide)
  have henc : encodeStrategicGoals ["a", "b"] = "[\"a\",\"b\"]" := by decide
  rw [henc] at h
  exact h

/-! ## Keyword-extraction lemmas (C7) -/

theorem jsReplaceNonAlnum_chars (s : String) :
    ∀ c ∈ (jsReplaceNonAlnum s).data, isWS c = false → isAlnumChar c = true := by
  intro c hc hws
  simp only [jsReplaceNonAlnum] at hc
  obtain ⟨d, _, hd⟩ := List.mem_map.mp hc
  by_cases h : (isAlnumChar d || isWS d) = true
  · rw [if_pos h] at hd
    subst hd
    rcases Bool.or_eq_true_iff.mp h with h' | h'
    · exact h'
    · rw [h'] at hws
      cases hws
  · rw [if_neg h] at hd
    subst hd
    cases hws

theorem splitWSTok_chars :
    ∀ l acc, (∀ c ∈ l, isWS c = false → isAlnumChar c = true) →
      (∀ c ∈ acc, isAlnumChar c = true ∧ isWS c = false) →
      ∀ tok ∈ splitWSTok l acc, ∀ ch ∈ tok, isAlnumChar ch = true ∧ isWS ch = false := by
  intro l acc
  induction l, acc using splitWSTok.induct with
  | case1 acc =>
      intro _ hacc tok htok ch hch
      rw [splitWSTok.eq_def] at htok
      simp at htok
      subst htok
      exact hacc ch (List.mem_reverse.mp hch)
  | case2 c rest acc hws ih =>
      intro hl hacc tok htok ch hch
      rw [splitWSTok.eq_def] at htok
      simp only [hws, if_true] at htok
      rcases List.mem_cons.mp htok with h | h
      · subst h
        exact hacc ch (List.mem_reverse.mp hch)
      · exact ih
          (fun d hd hws' => hl d (List.mem_cons_of_mem c ((List.dropWhile_sublist isWS).mem hd)) hws')
          (by simp) tok h ch hch
  | case3 c rest acc hws ih =>
      intro hl hacc tok htok ch hch
      rw [splitWSTok.eq_def] at htok
      simp only [hws, Bool.false_eq_true, if_false] at htok
      refine ih (fun d hd hws' => hl d (List.mem_cons_of_mem c hd) hws') ?_ tok htok ch hch
      intro d hd
      rcases List.mem_cons.mp hd with h | h
      · subst h
        have hcw : isWS d = false := by
          cases hval : isWS d
          · rfl
          · exact absurd hval (by simp [hws])
        exact ⟨hl d (by simp) hcw, hcw⟩
      · exact hacc d h

theorem jsSplitWS_nil (s : String) (hdata : s.data = []) : jsSplitWS s = [""] := by
  unfold jsSplitWS
  rw [hdata]

theorem jsSplitWS_eq (s : String) (c : Char) (rest : List Char) (hdata : s.data = c :: rest) :
    jsSplitWS s =
      if isWS c then
        "" :: (splitWSTok (rest.dropWhile isWS) []).map (fun l => (⟨l⟩ : String))
      else (splitWSTok rest [c]).map (fun l => (⟨l⟩ : String)) := by
  unfold jsSplitWS
  rw [hdata]

theorem jsSplitWS_chars (s : String)
    (h : ∀ c ∈ s.data, isWS c = false → isAlnumChar c = true) :
    ∀ tok ∈ jsSplitWS s, ∀ ch ∈ tok.data, isAlnumChar ch = true ∧ isWS ch = false := by
  intro tok htok ch hch
  rcases hdata : s.data with _ | ⟨c, rest⟩
  · rw [jsSplitWS_nil s hdata] at htok
    simp at htok
    subst htok
    cases hch
  · rw [jsSplitWS_eq s c rest hdata] at htok
    rw [hdata] at h
    by_cases hws : isWS c = true
    · rw [if_pos hws] at htok
      rcases List.mem_cons.mp htok with he | he
      · subst he
        cases hch
      · obtain ⟨l, hl, hmk⟩ := List.mem_map.mp he
        have := splitWSTok_chars (rest.dropWhile isWS) []
          (fun d hd hws' => h d (List.mem_cons_of_mem c ((List.dropWhile_sublist isWS).mem hd)) hws')
          (by simp) l hl ch (by rw [← hmk] at hch; exact hch)
        exact this
    · rw [if_neg hws] at htok
      obtain ⟨l, hl, hmk⟩ := List.mem_map.mp htok
      refine splitWSTok_chars rest [c]
        (fun d hd hws' => h d (List.mem_cons_of_mem c hd) hws') ?_ l hl ch
        (by rw [← hmk] at hch; exact hch)
      intro d hd
      rcases List.mem_cons.mp hd with he | he
      · subst he
        have hcw : isWS d = false := by
          cases hval : isWS d
          · rfl
          · exact absurd hval hws
        exact ⟨h d (by simp) hcw, hcw⟩
      · cases he

theorem titleKeywords_facts (subject : String) :
    ∀ w ∈ titleKeywords subject,
      (3 < w.length ∧ stopWords.contains (jsToLower w) = false) ∧
      ∀ ch ∈ w.data, isAlnumChar ch = true ∧ isWS ch = false := by
  intro w hw
  have hwf : w ∈ (jsSplitWS (jsReplaceNonAlnum subject)).filter
      (fun w => decide (3 < w.length) && !(stopWords.contains (jsToLower w))) :=
    (List.take_sublist 5 _).mem hw
  obtain ⟨hmem, hp⟩ := List.mem_filter.mp hwf
  obtain ⟨h1, h2⟩ := Bool.and_eq_true_iff.mp hp
  refine ⟨⟨by simpa using h1, by simpa using h2⟩, ?_⟩
  exact jsSplitWS_chars (jsReplaceNonAlnum subject) (jsReplaceNonAlnum_chars subject) w hmem

theorem splitWSTok_all_nonWS :
    ∀ l acc, (∀ c ∈ l, isWS c = false) → splitWSTok l acc = [acc.reverse ++ l] := by
  intro l
  induction l with
  | nil => intro acc _; rw [splitWSTok.eq_def]; simp
  | cons c rest ih =>
      intro acc h
      rw [splitWSTok.eq_def]
      have hc : isWS c = false := h c (by simp)
      simp only [hc, Bool.false_eq_true, if_false]
      rw [ih (c :: acc) (fun d hd => h d (List.mem_cons_of_mem c hd))]
      simp

theorem splitWSTok_across_sep :
    ∀ (l₁ : List Char) (acc l₂ : List Char), (∀ c ∈ l₁, isWS c = false) →
      splitWSTok (l₁ ++ ' ' :: l₂) acc =
        (acc.reverse ++ l₁) :: splitWSTok (l₂.dropWhile isWS) [] := by
  intro l₁
  induction l₁ with
  | nil =>
      intro acc l₂ _
      rw [List.nil_append, splitWSTok.eq_def]
      simp [show isWS ' ' = true by decide]
  | cons c rest ih =>
      intro acc l₂ h
      rw [List.cons_append, splitWSTok.eq_def]
      have hc : isWS c = false := h c (by simp)
      simp only [hc, Bool.false_eq_true, if_false]
      rw [ih (c :: acc) l₂ (fun d hd => h d (List.mem_cons_of_mem c hd))]
      simp

theorem joinWith_data_cons (t t2 : String) (ts : List String) :
    (joinWith " " (t :: t2 :: ts)).data = t.data ++ ' ' :: (joinWith " " (t2 :: ts)).data := by
  show ((t ++ " ") ++ joinWith " " (t2 :: ts)).data = _
  simp [data_append]

theorem splitWSTok_join :
    ∀ ts : List String, ts ≠ [] →
      (∀ t ∈ ts, t.data ≠ [] ∧ ∀ c ∈ t.data, isWS c = false) →
      splitWSTok (joinWith " " ts).data [] = ts.map String.data := by
  intro ts
  induction ts with
  | nil => intro h; exact absurd rfl h
  | cons t ts ih =>
      intro _ hok
      cases ts with
      | nil =>
          show splitWSTok t.data [] = [t.data]
          exact splitWSTok_all_nonWS t.data [] (hok t (by simp)).2
      | cons t2 ts2 =>
          rw [joinWith_data_cons,
            splitWSTok_across_sep t.data [] _ (hok t (by simp)).2]
          obtain ⟨X, hX⟩ : ∃ X, (joinWith " " (t2 :: ts2)).data = t2.data ++ X := by
            cases ts2 with
            | nil => exact ⟨[], by simp only [List.append_nil]; rfl⟩
            | cons t3 ts3 => exact ⟨_, joinWith_data_cons t2 t3 ts3⟩
          obtain ⟨c2, cs2, hc2⟩ : ∃ c2 cs2, t2.data = c2 :: cs2 := by
            rcases hd2 : t2.data with _ | ⟨c2, cs2⟩
            · exact absurd hd2 (hok t2 (by simp)).1
            · exact ⟨c2, cs2, rfl⟩
          have hdrop : (joinWith " " (t2 :: ts2)).data.dropWhile isWS =
              (joinWith " " (t2 :: ts2)).data := by
            rw [hX, hc2, List.cons_append, List.dropWhile_cons_of_neg]
            simp [(hok t2 (by simp)).2 c2 (by simp [hc2])]
          rw [hdrop, ih (by simp) (fun x hx => hok x (by simp [hx]))]
          simp

theorem map_mk_data : ∀ ts : List String, ts.map (fun t => (⟨t.data⟩ : String)) = ts := by
  intro ts
  induction ts with
  | nil => rfl
  | cons t ts ih => rw [List.map_cons, ih]

theorem jsSplitWS_join (ts : List String) (hne : ts ≠ [])
    (hok : ∀ t ∈ ts, t.data ≠ [] ∧ ∀ c ∈ t.data, isWS c = false) :
    jsSplitWS (joinWith " " ts) = ts := by
  obtain ⟨t, ts2, rfl⟩ : ∃ t ts2, ts = t :: ts2 := by
    cases ts with
    | nil => exact absurd rfl hne
    | cons t ts2 => exact ⟨t, ts2, rfl⟩
  obtain ⟨X, hX⟩ : ∃ X, (joinWith " " (t :: ts2)).data = t.data ++ X := by
    cases ts2 with
    | nil => exact ⟨[], by simp only [List.append_nil]; rfl⟩
    | cons t3 ts3 => exact ⟨_, joinWith_data_cons t t3 ts3⟩
  obtain ⟨c, cs, hc⟩ : ∃ c cs, t.data = c :: cs := by
    rcases hd : t.data with _ | ⟨c, cs⟩
    · exact absurd hd (hok t (by simp)).1
    · exact ⟨c, cs, rfl⟩
  have hcws : isWS c = false := (hok t (by simp)).2 c (by simp [hc])
  have hdata : (joinWith " " (t :: ts2)).data = c :: (cs ++ X) := by
    rw [hX, hc, List.cons_append]
  have hsplit := splitWSTok_join (t :: ts2) (by simp) hok
  rw [jsSplitWS_eq _ c (cs ++ X) hdata]
  rw [if_neg (by simp [hcws])]
  have hstep : splitWSTok (cs ++ X) [c] = (t :: ts2).map String.data := by
    have : splitWSTok (c :: (cs ++ X)) [] = (t :: ts2).map String.data := by
      rw [← hdata]; exact hsplit
    rw [splitWSTok.eq_def] at this
    simpa [hcws] using this
  rw [hstep, List.map_map]
  exact map_mk_data (t :: ts2)

theorem jsReplaceNonAlnum_id (s : String)
    (h : ∀ c ∈ s.data, isAlnumChar c = true ∨ isWS c = true) : jsReplaceNonAlnum s = s := by
  show (⟨s.data.map _⟩ : String) = s
  have hmap : s.data.map (fun c => if isAlnumChar c || isWS c then c else ' ') = s.data.map id := by
    refine List.map_congr_left ?_
    intro c hc
    have : (isAlnumChar c || isWS c) = true := by
      rcases h c hc with h' | h' <;> simp [h']
    rw [if_pos this]
    rfl
  rw [hmap, List.map_id]

theorem joinWith_chars :
    ∀ ts : List String, ∀ c ∈ (joinWith " " ts).data,
      (∃ t ∈ ts, c ∈ t.data) ∨ c = ' ' := by
  intro ts
  induction ts with
  | nil => intro c hc; cases hc
  | cons t ts ih =>
      intro c hc
      cases ts with
      | nil =>
          exact Or.inl ⟨t, by simp, hc⟩
      | cons t2 ts2 =>
          rw [joinWith_data_cons] at hc
          rcases List.mem_append.mp hc with h | h
          · exact Or.inl ⟨t, by simp, h⟩
          · rcases List.mem_cons.mp h with h' | h'
            · exact Or.inr h'
            · rcases ih c h' with ⟨t', ht', hc'⟩ | h'
              · exact Or.inl ⟨t', by simp [ht'], hc'⟩
              · exact Or.inr h'

/-- C7 amended: keyword extraction returns at most 8 space-joined tokens
and keeps no stop-word or ≤3-character token in the title-derived portion;
re-running the extraction on its own output is an identity when the
description is empty — but not in general, since description-derived
tokens bypass the stop-word filter (see the counterexample). -/
theorem extract_keywords_amended :
    (∀ subject description, (extractKeywordsList subject description).length ≤ 8) ∧
    (∀ subject, ∀ w ∈ titleKeywords subject,
      3 < w.length ∧ stopWords.contains (jsToLower w) = false) ∧
    (∀ subject, extractKeywords (extractKeywords subject "") "" = extractKeywords subject "") := by
  refine ⟨fun s _d => List.length_take_le 8 _,
    fun s w hw => (titleKeywords_facts s w hw).1, ?_⟩
  intro subject
  have hks : extractKeywordsList subject "" = titleKeywords subject := by
    simp [extractKeywordsList, titleKeywords, List.take_take]
  have hlen5 : (titleKeywords subject).length ≤ 5 := List.length_take_le 5 _
  show joinWith " " (extractKeywordsList (joinWith " " (extractKeywordsList subject "")) "") =
    joinWith " " (extractKeywordsList subject "")
  rw [hks]
  by_cases hnil : titleKeywords subject = []
  · rw [hnil]
    have hempty : extractKeywordsList "" "" = [] := by
      have h0 : jsSplitWS (jsReplaceNonAlnum "") = [""] := jsSplitWS_nil _ rfl
      simp [extractKeywordsList, titleKeywords, h0]
    show joinWith " " (extractKeywordsList "" "") = joinWith " " []
    rw [hempty]
  · have hfacts := titleKeywords_facts subject
    have hok : ∀ t ∈ titleKeywords subject, t.data ≠ [] ∧ ∀ c ∈ t.data, isWS c = false := by
      intro t ht
      have h1 := (hfacts t ht).1.1
      refine ⟨?_, fun c hc => ((hfacts t ht).2 c hc).2⟩
      intro hdata
      simp [String.length, hdata] at h1
    have hreplace : jsReplaceNonAlnum (joinWith " " (titleKeywords subject)) =
        joinWith " " (titleKeywords subject) := by
      apply jsReplaceNonAlnum_id
      intro c hc
      rcases joinWith_chars _ c hc with ⟨t, ht, hct⟩ | hsp
      · exact Or.inl ((hfacts t ht).2 c hct).1
      · subst hsp
        exact Or.inr (by decide)
    have hsplit : jsSplitWS (joinWith " " (titleKeywords subject)) = titleKeywords subject :=
      jsSplitWS_join _ hnil hok
    have hfilter : (titleKeywords subject).filter
        (fun w => decide (3 < w.length) && !(stopWords.contains (jsToLower w))) =
          titleKeywords subject := by
      apply List.filter_eq_self.mpr
      intro w hw
      have h1 := (hfacts w hw).1
      refine Bool.and_eq_true_iff.mpr ⟨decide_eq_true h1.1, ?_⟩
      rw [h1.2]
      rfl
    have htk : titleKeywords (joinWith " " (titleKeywords subject)) = titleKeywords subject := by
      show ((jsSplitWS (jsReplaceNonAlnum (joinWith " " (titleKeywords subject)))).filter _).take 5 = _
      rw [hreplace, hsplit, hfilter]
      exact List.take_of_length_le hlen5
    have hlist : extractKeywordsList (joinWith " " (titleKeywords subject)) "" =
        titleKeywords subject := by
      have hdef : extractKeywordsList (joinWith " " (titleKeywords subject)) "" =
          (titleKeywords (joinWith " " (titleKeywords subject)) ++ []).take 8 := rfl
      rw [hdef, htk, List.append_nil]
      exact List.take_of_length_le (le_trans hlen5 (by norm_num))
    rw [hlist]

/-- C7 counterexample: the description-derived tokens skip the stop-word
filter, so re-running the extraction on its own output drops "review" (a
stop-word) — the extraction is not idempotent on its own output. -/
theorem extract_keywords_idempotent_counterexample :
    extractKeywords "" "review session planned" = "review session planned" ∧
    extractKeywords "review session planned" "" = "session planned" ∧
    ("review session planned" : String) ≠ "session planned" := by
  refine ⟨?_, ?_, by decide⟩ <;>
    simp [extractKeywords, extractKeywordsList, titleKeywords, descKeywords, jsSplitWS,
      splitWSTok, stripTags, findAfterGt, joinWith, jsReplaceNonAlnum, isWS, isAlnumChar,
      jsToLower, stopWords, List.dropWhile]

/-- C7 witness: the amended bounds and empty-description idempotence at
concrete inputs. -/
theorem extract_keywords_amended_witness :
    (extractKeywordsList "Quarterly Budget Review planning" "agenda items attached").length ≤ 8 ∧
    (3 < "Quarterly".length ∧ stopWords.contains (jsToLower "Quarterly") = false) ∧
    extractKeywords (extractKeywords "Quarterly Budget strategy" "") "" =
      extractKeywords "Quarterly Budget strategy" "" :=
  ⟨extract_keywords_amended.1 "Quarterly Budget Review planning" "agenda items attached",
   extract_keywords_amended.2.1 "Quarterly Budget Review planning" "Quarterly" (by
    have h : titleKeywords "Quarterly Budget Review planning" =
        ["Quarterly", "Budget", "planning"] := by
      simp [titleKeywords, jsSplitWS, splitWSTok, jsReplaceNonAlnum, isWS, isAlnumChar,
        jsToLower, stopWords, List.dropWhile]
      all_goals decide
    rw [h]
    decide),
   extract_keywords_amended.2.2 "Quarterly Budget strategy"⟩

/-- C3 counterexample: with one fetched email and the single entry
`{index: 2, category: "highPriority"}` (index out of range), nothing is
placed in any category — the entry is not normalised into `highPriority`
as claimed. -/
theorem inbox_normalization_counterexample :
    totalCategorized
        (sortIntoCategories [⟨2, "highPriority"⟩]
          [⟨"id1", "t1", "Budget approval", "Ann Lee <ann@example.com>", "Mon", "s1", "b1"⟩]) = 0 := by
  decide

/-- C5: `detectMeetingType` is a deterministic pure function equal, for
every title and external-attendee list, to the first-match-wins run of the
fixed precedence table interview > standup > one-on-one > review >
planning/sprint > demo/presentation > kickoff > external > general; in
particular "Interview: Board Review" yields "interview" (not "review"),
even with external attendees present. -/
theorem detect_meeting_type_precedence :
    (∀ subject external, detectMeetingType subject external = detectMeetingTypeSpec subject external) ∧
    detectMeetingType "Interview: Board Review" [] = "interview" ∧
    detectMeetingType "External interview" ["pat@client.example"] = "interview" :=
  ⟨fun _ _ => rfl, by decide, by decide⟩

/-- C6: a task whose due date is strictly before `now` is processed with
`isOverdue = true` and `prioritySignal = "critical"`, whatever its title. -/
theorem task_overdue_is_critical (now todayEnd weekEnd : Int) (task : RawTask)
    (d : Int) (hdue : task.due = some d) (hlt : d < now) :
    (processTask now todayEnd weekEnd task).isOverdue = true ∧
    (processTask now todayEnd weekEnd task).prioritySignal = "critical" := by
  unfold processTask
  rw [hdue]
  simp [hlt]

/-- C6 witness: a concrete overdue task with an innocuous title. -/
theorem task_overdue_is_critical_witness :
    (processTask 100 124 268 ⟨some "Relaxing walk", none, none, some 50⟩).isOverdue = true ∧
    (processTask 100 124 268 ⟨some "Relaxing walk", none, none, some 50⟩).prioritySignal = "critical" :=
  task_overdue_is_critical 100 124 268 ⟨some "Relaxing walk", none, none, some 50⟩ 50 rfl (by decide)

/-- C2 (code bug): with one 9-hour meeting today, `processCalendarEvents`
clamps `availableHours` to 0 as the spec states, but `buildAIContext`'s
day-health block passes it through `|| 8`, for which 0 is falsy — so the
digest reports 8 available focus hours instead of max(0, 8 − 9) = 0. -/
theorem dayhealth_focus_hours_code_bug :
    (processCalendarEvents 86400000 172800000
        [⟨some 0, 0, some 32400000, 0, some "Offsite planning day", []⟩]).summary.todayMeetingHours = 9 ∧
    (processCalendarEvents 86400000 172800000
        [⟨some 0, 0, some 32400000, 0, some "Offsite planning day", []⟩]).summary.availableHours = 0 ∧
    (buildDayHealth
        (processCalendarEvents 86400000 172800000
          [⟨some 0, 0, some 32400000, 0, some "Offsite planning day", []⟩])
        (processEmails []) (processTasks 0 86400000 604800000 [])).availableFocusHours = 8 ∧
    max (0 : ℚ) (8 - 9) = 0 := by
  refine ⟨?_, ?_, ?_, by norm_num⟩ <;>
    norm_num [buildDayHealth, processCalendarEvents, processCalEvent, processEmails,
      processTasks, round1, jsRound, jsOrQ, jsOrN, jsSort, List.filter]

/-- C4 counterexample: the message surfaced to the caller is not a static
string — it embeds the raw internal error text verbatim. -/
theorem orchestrator_error_surface_counterexample :
    briefErrorBody "socket hang up at mail gateway" =
      "Failed to generate brief: socket hang up at mail gateway" ∧
    includes (briefErrorBody "socket hang up at mail gateway") "socket hang up" = true ∧
    briefErrorBody "socket hang up at mail gateway" ≠ briefErrorBody "quota exceeded" ∧
    prioritiesErrorBody "quota exceeded" = "Failed to generate priorities: quota exceeded" :=
  ⟨rfl, by decide, by decide, rfl⟩

/-- C4 amended: the failure-log error text is truncated (to 500 characters
of the raw message, plus a fixed 21-character prefix in the priorities
handler), while the message surfaced to the caller is a fixed prefix
followed by the raw, untruncated error message. -/
theorem orchestrator_failure_truncation_amended (msg : String) :
    (briefFailureLogMessage msg).length ≤ 500 ∧
    (prioritiesFailureLogMessage msg).length ≤ 521 ∧
    briefErrorBody msg = "Failed to generate brief: " ++ msg ∧
    prioritiesErrorBody msg = "Failed to generate priorities: " ++ msg := by
  refine ⟨?_, ?_, rfl, rfl⟩
  · show (msg.data.take 500).length ≤ 500
    simp [List.length_take]
  · show ("Priority generation: ".data ++ msg.data.take 500).length ≤ 521
    simp [List.length_take]

/-- C4 amended witness: the bounds at a concrete short message. -/
theorem orchestrator_failure_truncation_amended_witness :
    (briefFailureLogMessage "boom").length ≤ 500 ∧
    (prioritiesFailureLogMessage "boom").length ≤ 521 :=
  ⟨(orchestrator_failure_truncation_amended "boom").1,
   (orchestrator_failure_truncation_amended "boom").2.1⟩

/-- C9: when no fetched event has at least one attendee and is
non-cancelled, the generate-brief handler makes no AI call and no send
call, writes exactly one success log entry with the informational note,
and returns success with `meeting_count = 0`. -/
theorem brief_no_meetings_shortcircuit (events : List GBEvent) (sendError : Option String)
    (h : (events.filter qualifiesAsMeeting).length = 0) :
    generateBriefRun events sendError =
      { logs := [{ meeting_count := 0, status := "success",
                   error_message := some "No meetings with attendees found today" }]
        aiCalls := 0
        sendCalls := 0
        statusCode := 200
        success := true
        meeting_count := 0
        message := "No meetings with attendees found today. No brief needed!" } := by
  unfold generateBriefRun
  simp [h]

/-- C9 witness: one attendee-less event short-circuits. -/
theorem brief_no_meetings_shortcircuit_witness :
    generateBriefRun [⟨some "Focus block", [], "confirmed"⟩] none =
      { logs := [{ meeting_count := 0, status := "success",
                   error_message := some "No meetings with attendees found today" }]
        aiCalls := 0
        sendCalls := 0
        statusCode := 200
        success := true
        meeting_count := 0
        message := "No meetings with attendees found today. No brief needed!" } :=
  brief_no_meetings_shortcircuit [⟨some "Focus block", [], "confirmed"⟩] none (by decide)

/-- C10: the token-refresh step leaves every user field except the access
token and its expiry unchanged; it writes only when the refreshed access
token differs from the stored one, and when it does not write the record
is exactly the one read. -/
theorem token_refresh_frame (user : UserRecord) (outcome : Option Credentials) :
    ((refreshTokenStep user outcome).1.google_refresh_token = user.google_refresh_token ∧
     (refreshTokenStep user outcome).1.strategic_goals = user.strategic_goals ∧
     (refreshTokenStep user outcome).1.calendar_id = user.calendar_id ∧
     (refreshTokenStep user outcome).1.name = user.name ∧
     (refreshTokenStep user outcome).1.email = user.email) ∧
    ((refreshTokenStep user outcome).2 = true ↔
      ∃ c, outcome = some c ∧ c.access_token ≠ user.google_access_token) ∧
    ((refreshTokenStep user outcome).2 = false → (refreshTokenStep user outcome).1 = user) := by
  cases outcome with
  | none => simp [refreshTokenStep]
  | some c =>
      by_cases h : c.access_token = user.google_access_token
      · simp [refreshTokenStep, h]
      · simp [refreshTokenStep, h]

/-- C10 witness: an unchanged refreshed token performs no write and leaves
the record exactly as read. -/
theorem token_refresh_frame_witness :
    (refreshTokenStep
        ⟨"tok-a", some "refresh-1", some 1000, some "grow", some "primary", some "Dana", "dana@example.com"⟩
        (some ⟨"tok-a", some 2000⟩)).1 =
      ⟨"tok-a", some "refresh-1", some 1000, some "grow", some "primary", some "Dana", "dana@example.com"⟩ :=
  (token_refresh_frame
      ⟨"tok-a", some "refresh-1", some 1000, some "grow", some "primary", some "Dana", "dana@example.com"⟩
      (some ⟨"tok-a", some 2000⟩)).2.2 (by decide)

end MadeEA
